import Mathlib

/-!
Verification development for the wiki-update-tracker translation tracking
engine (`src/tracker.py`).  The git backing store is shallowly embedded as
explicit data (commits with parent links, trees, rename records and a
pair-diff table, matching the read-only boundary of spec section 6); the
tracker's classes and functions are translated definition by definition
from the source.  Python exceptions are modelled with `Except`.
-/

/-- Exceptions raised by the tracking stage.  `notImplemented`, `valueError`,
`keyError`, `attributeError` and `indexError` model the corresponding Python
built-ins; `languageTag` models `LanguageTagException`; `samePath` models
`SamePathException` (both subclasses of `TrackerException` in the source). -/
inductive TrackErr where
  | notImplemented
  | valueError
  | keyError
  | attributeError
  | indexError
  | languageTag
  | samePath
deriving DecidableEq, Repr

/-- Decidable equality of `Except` results, for evaluating the embedding on
concrete inputs. -/
instance {ε α : Type} [DecidableEq ε] [DecidableEq α] : DecidableEq (Except ε α) :=
  fun x y =>
    match x, y with
    | .ok a, .ok b =>
      if h : a = b then isTrue (by rw [h]) else isFalse (fun heq => h (Except.ok.inj heq))
    | .error a, .error b =>
      if h : a = b then isTrue (by rw [h]) else isFalse (fun heq => h (Except.error.inj heq))
    | .ok _, .error _ => isFalse (fun heq => Except.noConfusion heq)
    | .error _, .ok _ => isFalse (fun heq => Except.noConfusion heq)

/-- A repository path, as its list of components (`pathlib.Path` parts). -/
abbrev RPath := List String

/-- Raw file bytes.  `text` is the byte string (one `Char` per byte for the
purposes of newline counting); `decodable` records whether the bytes decode
as text (a `False` value models content whose decoding raises
`UnicodeDecodeError`). -/
structure Bytes where
  text : String
  decodable : Bool
deriving DecidableEq, Repr

/-- Number of newline bytes in a string (`data.count(b"\n")` in the source). -/
def countNewlines (s : String) : Nat :=
  s.data.count '\n'

/-- Whether the first list occurs at the head of the second. -/
def startsWith {α : Type} [DecidableEq α] : List α → List α → Bool
  | [], _ => true
  | _ :: _, [] => false
  | p :: ps, c :: cs => p = c && startsWith ps cs

/-- Count of non-overlapping occurrences of `pat` in a character list
(Python `bytes.count`): on a match the remaining `pat.length - 1`
characters of the match are skipped via the counter argument. -/
def countSubAux (pat : List Char) : List Char → Nat → Nat
  | [], _ => 0
  | _ :: cs, skip + 1 => countSubAux pat cs skip
  | c :: cs, 0 =>
    if startsWith pat (c :: cs) then
      1 + countSubAux pat cs (pat.length - 1)
    else
      countSubAux pat cs 0

/-- Count of non-overlapping occurrences of `pat` in `s` (Python
`bytes.count`). -/
def countSub (s pat : String) : Nat :=
  countSubAux pat.data s.data 0

/-- First value associated to a key in an association list (leftmost entry
wins, like a Python `dict` that is only ever extended with fresh keys). -/
def alookup {α β : Type} [DecidableEq α] : List (α × β) → α → Option β
  | [], _ => none
  | (k, v) :: rest, k2 => if k = k2 then some v else alookup rest k2

/-- One structural change record between a commit and a base commit, as
produced by the backing store's diff primitive (GitPython `Diff`). -/
structure DiffEntry where
  a_path : Option RPath
  b_path : Option RPath
  new_file : Bool
  copied_file : Bool
  renamed_file : Bool
  deleted_file : Bool
  rename_from : Option RPath
  rename_to : Option RPath
  b_blob : Option Bytes
deriving DecidableEq, Repr

/-- A commit of the backing history store: parent commit ids (first parent
first), the full file tree, and the renames realized in this commit (used by
the diff primitive's rename detection).  Commit ids double as timestamps:
in a well-formed repository every parent id is smaller than the child id,
and descending id order is the store's reverse-chronological order. -/
structure Commit where
  parents : List Nat
  tree : List (RPath × Bytes)
  renameInfo : List (RPath × RPath)
deriving DecidableEq, Repr

/-- The backing history store: the commits (indexed by id) and the literal
diff text the store produces for `(base commit, head commit, path)` queries
(interface item (5) of spec section 6, kept as data since the tracker only
consumes it). -/
structure Repo where
  commits : List Commit
  pairDiffs : List ((Nat × Nat × RPath) × String)
deriving DecidableEq, Repr

/-- Parent ids of a commit (empty for a root commit or an unknown id). -/
def parentsOf (repo : Repo) (i : Nat) : List Nat :=
  match repo.commits[i]? with
  | none => []
  | some cm => cm.parents

/-- One marking step of the reachability computation: if commit `i` is
already reachable, its parents become reachable. -/
def markStep (repo : Repo) (marked : List Nat) (i : Nat) : List Nat :=
  if i ∈ marked then
    marked ++ (parentsOf repo i).filter (fun p => decide (p ∉ marked))
  else
    marked

/-- Ids reachable from commit `c` by parent links.  Ids are processed in
descending order, so with parents smaller than children every reachable id
gets marked. -/
def reachMarks (repo : Repo) (c : Nat) : List Nat :=
  (List.range (c + 1)).reverse.foldl (markStep repo) [c]

/-- Commits reachable from `c` (inclusive), in descending id order — the
store's `rev-list` order under the id-as-timestamp convention. -/
def reachableDesc (repo : Repo) (c : Nat) : List Nat :=
  (List.range (c + 1)).reverse.filter (fun i => decide (i ∈ reachMarks repo c))

/-- The commits yielded by `commit.iter_parents()`: every ancestor of `c`,
most recent first, excluding `c` itself. -/
def iterParents (repo : Repo) (c : Nat) : List Nat :=
  (reachableDesc repo c).filter (fun i => decide (i ≠ c))

/-- The first commit yielded by `iter_parents` (`next(commit.iter_parents())`
in the source); `none` models `StopIteration` on a root commit. -/
def firstAncestor (repo : Repo) (c : Nat) : Option Nat :=
  (iterParents repo c).head?

/-- Content of `path` in the tree of commit `i` (`commit.tree[path]`),
`none` when absent (the store raises `KeyError` there; callers model it). -/
def treeGet (repo : Repo) (i : Nat) (path : RPath) : Option Bytes :=
  match repo.commits[i]? with
  | none => none
  | some cm => alookup cm.tree path

/-- Renames realized in commit `i`. -/
def renameInfoOf (repo : Repo) (i : Nat) : List (RPath × RPath) :=
  match repo.commits[i]? with
  | none => []
  | some cm => cm.renameInfo

/-- The store's structural diff between base commit `p` and head commit `c`
restricted to `path` (`p.diff(c, paths=path)[0]` in the source): `none` when
the path is unchanged, otherwise one entry classified as modification,
creation, rename or deletion using the head commit's rename records. -/
def diffEntry (repo : Repo) (p c : Nat) (path : RPath) : Option DiffEntry :=
  match treeGet repo p path, treeGet repo c path with
  | some bp, some bc =>
    if bp = bc then none
    else some ⟨some path, some path, false, false, false, false, none, none, some bc⟩
  | none, some bc =>
    match (renameInfoOf repo c).find? (fun r => r.2 == path) with
    | some r => some ⟨some r.1, some path, false, false, true, false, some r.1, some path, some bc⟩
    | none => some ⟨none, some path, true, false, false, false, none, none, some bc⟩
  | some _, none =>
    match (renameInfoOf repo c).find? (fun r => r.1 == path) with
    | some r => some ⟨some path, some r.2, false, false, true, false, some path, some r.2, treeGet repo c r.2⟩
    | none => some ⟨some path, none, false, false, false, true, none, none, none⟩
  | none, none => none

/-- Whether commit `i` altered `path` relative to its first parent (for a
root commit: whether the path exists in its tree).  This is the store's
`log -- path` membership test. -/
def touches (repo : Repo) (i : Nat) (path : RPath) : Bool :=
  match parentsOf repo i with
  | [] => (treeGet repo i path).isSome
  | fp :: _ => (diffEntry repo fp i path).isSome

/-- `repo.iter_commits(rev=c, paths=path)`: the commits reachable from `c`
that altered `path`, most recent first. -/
def iterCommitsPaths (repo : Repo) (c : Nat) (path : RPath) : List Nat :=
  (reachableDesc repo c).filter (fun i => touches repo i path)

/-- A file and its last changes within the repository — the fields of the
source's `GitFile` class. -/
structure GitFile where
  path : RPath
  no_trace : Bool
  commit : Option Nat
  new_file : Bool
  copied_file : Bool
  renamed_file : Bool
  rename_from : Option RPath
  rename_to : Option RPath
  deleted_file : Bool
  blob : Option Bytes
deriving DecidableEq, Repr

/-- Second half of `GitFile.__init__` (source lines 107-109): when the file
is not deleted and the diff left `blob` unset, read the blob from the
resolved commit's tree; a missing tree entry is the store's `KeyError`. -/
def finishBlob (repo : Repo) (c : Nat) (g : GitFile) : Except TrackErr GitFile :=
  if g.deleted_file = false ∧ g.blob = none then
    match treeGet repo c g.path with
    | some b => .ok { g with blob := some b }
    | none => .error .keyError
  else
    .ok g

/-- `GitFile.__init__(path, commit)` (source lines 62-112).  Walks the
ancestry of `commit` for the nearest commit altering `path`; if none, the
file has no trace.  If the changer commit has an ancestor, the change is
classified from the structural diff against the most recent ancestor
(an empty diff is the uncaught `IndexError` of line 90); `no_trace` is
cleared only on this branch — on a root changer commit the source sets
`new_file` but leaves `no_trace` at `True` (lines 104-106).  On a rename the
path is rewritten to the diff's `b_path`: the source's guard compares a
`Path` against a `str` (line 100), which is never equal in Python, so the
rewrite always happens. -/
def GitFile.mk' (repo : Repo) (path0 : RPath) (commit : Nat) : Except TrackErr GitFile :=
  let g0 : GitFile :=
    ⟨path0, true, none, false, false, false, none, none, false, none⟩
  match (iterCommitsPaths repo commit path0).head? with
  | none => .ok g0
  | some c =>
    let g1 := { g0 with commit := some c }
    match firstAncestor repo c with
    | none =>
      finishBlob repo c { g1 with new_file := true }
    | some p =>
      match diffEntry repo p c path0 with
      | none => .error .indexError
      | some d =>
        let g2 := { g1 with
          new_file := d.new_file
          copied_file := d.copied_file
          renamed_file := d.renamed_file
          deleted_file := d.deleted_file
          blob := d.b_blob
          no_trace := false }
        let g3 :=
          if d.renamed_file then
            { g2 with
              rename_from := d.rename_from
              rename_to := d.rename_to
              path := d.b_path.getD g2.path }
          else g2
        finishBlob repo c g3

/-- `GitFile.cnt_lines` (source lines 114-129): number of newline bytes in
the blob plus one; raises `NotImplementedError` when the file has no trace
or was deleted, `ValueError` when the blob is unreadable. -/
def GitFile.cnt_lines (g : GitFile) : Except TrackErr Nat :=
  if g.no_trace = true ∨ g.deleted_file = true then
    .error .notImplemented
  else
    match g.blob with
    | none => .error .valueError
    | some b => .ok (countNewlines b.text + 1)

/-- Modelled from the spec: `constants.py` is not under `src/`; the closed
registry of recognized RFC 5646 language tags and their derived language
names (spec section 3, TranslationFile).  A representative finite table. -/
def RFC5646_LANGUAGE_TAGS : List (String × String) :=
  [("en", "English"), ("fr", "French"), ("fr-FR", "French (France)"),
   ("zh", "Chinese"), ("de", "German")]

/-- Modelled from the spec: `constants.py` is not under `src/`; the specific
front-matter key of the not-started marker (spec section 4.3). -/
def HEADER_TBI_KEY : String := "translation-done"

/-- Modelled from the spec: `constants.py` is not under `src/`; the specific
sentinel value of the not-started marker (spec section 4.3). -/
def HEADER_TBI_VALUE : String := "false"

/-- The source's `TranslationGitFile`: a `GitFile` plus the language tag and
the language name derived from the registry. -/
structure TranslationGitFile where
  file : GitFile
  lang_tag : String
  language : String
deriving DecidableEq, Repr

/-- `TranslationGitFile.__init__` (source lines 139-141): builds the
underlying `GitFile`, then assigns `lang_tag`, which the intercepting
`__setattr__` (lines 143-158) validates against the registry — an unknown
tag raises `LanguageTagException` and no object is produced; otherwise
`language` is set to the registry entry for the tag. -/
def TranslationGitFile.mk' (repo : Repo) (path : RPath) (lang_tag : String)
    (commit : Nat) : Except TrackErr TranslationGitFile :=
  match GitFile.mk' repo path commit with
  | .error e => .error e
  | .ok g =>
    match alookup RFC5646_LANGUAGE_TAGS lang_tag with
    | none => .error .languageTag
    | some name => .ok ⟨g, lang_tag, name⟩

/-- Assignment to `lang_tag` after construction (source lines 149-154):
validates the new tag against the registry and updates `language` with it. -/
def TranslationGitFile.setLangTag (t : TranslationGitFile) (tag : String) :
    Except TrackErr TranslationGitFile :=
  match alookup RFC5646_LANGUAGE_TAGS tag with
  | none => .error .languageTag
  | some name => .ok { t with lang_tag := tag, language := name }

/-- Assignment to `language` after construction (source lines 155-156):
always raises `NotImplementedError` — the name cannot be changed
independently of the tag. -/
def TranslationGitFile.setLanguage (_ : TranslationGitFile) (_ : String) :
    Except TrackErr TranslationGitFile :=
  .error .notImplemented

/-- Decoding of raw bytes to text; `none` models `UnicodeDecodeError`. -/
def decodeBytes (b : Bytes) : Option String :=
  if b.decodable then some b.text else none

/-- Split a character list at every occurrence of a separator character. -/
def splitOnChar (sep : Char) : List Char → List (List Char)
  | [] => [[]]
  | c :: cs =>
    if c = sep then [] :: splitOnChar sep cs
    else
      match splitOnChar sep cs with
      | [] => [[c]]
      | h :: t => (c :: h) :: t

/-- The lines of a text (split at newline characters). -/
def splitLines (s : String) : List String :=
  (splitOnChar '\n' s.data).map String.mk

/-- Split a character list at the first `": "` occurrence, when there is
one. -/
def splitColonSpace : List Char → Option (List Char × List Char)
  | [] => none
  | ':' :: ' ' :: rest => some ([], rest)
  | c :: cs =>
    match splitColonSpace cs with
    | none => none
    | some (a, b) => some (c :: a, b)

/-- One `key: value` line of a front-matter block. -/
def parseKV (l : String) : Option (String × String) :=
  match splitColonSpace l.data with
  | none => none
  | some (k, v) => some (String.mk k, String.mk v)

/-- Lines of the front-matter body, up to the closing delimiter line;
`none` when the block is never closed. -/
def takeUntilDelim : List String → Option (List String)
  | [] => none
  | l :: ls => if l = "---" then some [] else (takeUntilDelim ls).map (l :: ·)

/-- Modelled from the spec: the third-party `frontmatter` parser is not part
of `src/`; a structured key/value front-matter header block (spec section
4.3).  Metadata is the `key: value` lines between an opening `---` line at
the very start of the text and the next `---` line; text without such a
block has empty metadata. -/
def parseFrontmatter (s : String) : List (String × String) :=
  match splitLines s with
  | [] => []
  | l :: ls =>
    if l = "---" then
      match takeUntilDelim ls with
      | some body => body.filterMap parseKV
      | none => []
    else []

/-- Marker test on decoded content: the specific key present with the
specific sentinel value. -/
def hasTbiHeaderContent (b : Bytes) : Bool :=
  match decodeBytes b with
  | none => false
  | some s =>
    match alookup (parseFrontmatter s) HEADER_TBI_KEY with
    | none => false
    | some v => v = HEADER_TBI_VALUE

/-- `has_tbi_header(blob)` (source lines 348-367): reading a missing blob
raises `ValueError`; content that fails to decode is "not a front-matter
file" and yields `False`; otherwise the front-matter metadata is checked for
the marker key and sentinel value. -/
def has_tbi_header (blob : Option Bytes) : Except TrackErr Bool :=
  match blob with
  | none => .error .valueError
  | some b => .ok (hasTbiHeaderContent b)

/-- The source's `GitPatch`: literal diff text and the counts scanned from
it. -/
structure GitPatch where
  diff : String
  additions : Nat
  deletions : Nat
  changes : Nat
deriving DecidableEq, Repr

/-- `GitPatch.__init__(a_file, b_file)` (source lines 170-191): queries the
store's literal diff between the two files' commits for `b_file.path`
(a file without a commit makes the query an `AttributeError`; an empty diff
list is the `IndexError` turned into `ValueError`), then counts additions
and deletions by scanning the text for the `"\n+"` and `"\n-"` markers and
sets `changes` to their sum. -/
def GitPatch.mk' (repo : Repo) (a_file b_file : GitFile) : Except TrackErr GitPatch :=
  match a_file.commit, b_file.commit with
  | some ac, some bc =>
    match alookup repo.pairDiffs (ac, bc, b_file.path) with
    | none => .error .valueError
    | some text =>
      .ok ⟨text, countSub text "\n+", countSub text "\n-",
           countSub text "\n+" + countSub text "\n-"⟩
  | _, _ => .error .attributeError

/-- The five track record variants (the source's `TranslationTrack`
subclasses), each carrying the shared translation/original/branch data and
its own payload. -/
inductive Track where
  | tbc (translation : TranslationGitFile) (original : GitFile) (branch : String)
      (missing_lines : Nat)
  | tbi (translation : TranslationGitFile) (original : GitFile) (branch : String)
      (missing_lines : Nat)
  | update (translation : TranslationGitFile) (original : GitFile) (branch : String)
      (to_rename : Bool) (base_original : GitFile) (patch : GitPatch)
  | utd (translation : TranslationGitFile) (original : GitFile) (branch : String)
  | orphan (translation : TranslationGitFile) (original : GitFile) (branch : String)
      (deleted : Bool) (surplus_lines : Nat)
deriving DecidableEq, Repr

/-- `ToCreateTranslationTrack.__init__` (source lines 219-227):
`missing_lines` is the line count of the original. -/
def ToCreateTranslationTrack (translation : TranslationGitFile) (original : GitFile)
    (branch : String) : Except TrackErr Track :=
  match original.cnt_lines with
  | .error e => .error e
  | .ok m => .ok (.tbc translation original branch m)

/-- `ToInitTranslationTrack.__init__` (source lines 230-238):
`missing_lines` is the line count of the original. -/
def ToInitTranslationTrack (translation : TranslationGitFile) (original : GitFile)
    (branch : String) : Except TrackErr Track :=
  match original.cnt_lines with
  | .error e => .error e
  | .ok m => .ok (.tbi translation original branch m)

/-- `UpToDateTranslationTrack.__init__` (source lines 266-271). -/
def UpToDateTranslationTrack (translation : TranslationGitFile) (original : GitFile)
    (branch : String) : Track :=
  .utd translation original branch

/-- `OrphanTranslationTrack.__init__` (source lines 274-285): `deleted`
records whether the original was deleted, and `surplus_lines` is the line
count of the translation — which raises when the translation itself has no
trace or was deleted. -/
def OrphanTranslationTrack (translation : TranslationGitFile) (original : GitFile)
    (branch : String) : Except TrackErr Track :=
  match translation.file.cnt_lines with
  | .error e => .error e
  | .ok s => .ok (.orphan translation original branch original.deleted_file s)

/-- `ToUpdateTranslationTrack.__init__` (source lines 241-263): `to_rename`
compares the filenames of the translation and the (possibly renamed)
original; `base_original` resolves the original's rename-source path (when
the current original was produced by a rename, its `rename_from`) at the
translation's last-change commit; `patch` is the store diff from the base
original to the current original. -/
def ToUpdateTranslationTrack (repo : Repo) (translation : TranslationGitFile)
    (original : GitFile) (branch : String) : Except TrackErr Track :=
  let to_rename : Bool := translation.file.path.getLastD "" ≠ original.path.getLastD ""
  match translation.file.commit with
  | none => .error .attributeError
  | some tc =>
    let bo_path :=
      if original.renamed_file then original.rename_from else some original.path
    match bo_path with
    | none => .error .attributeError
    | some bp =>
      match GitFile.mk' repo bp tc with
      | .error e => .error e
      | .ok base_original =>
        match GitPatch.mk' repo base_original original with
        | .error e => .error e
        | .ok patch =>
          .ok (.update translation original branch to_rename base_original patch)

/-- The loop body of `TranslationTracker.track` (source lines 510-535) for
one mapped pair: resolve both files against the active commit, then apply
the transition cascade — both traceless: drop the pair (`none`); original
traceless or deleted: Orphan; translation traceless or deleted: ToCreate;
not-started marker: ToInitialize; translation's commit equals the
original's or the original's commit is among the translation's commit's
ancestors: UpToDate; otherwise ToUpdate. -/
def trackPair (repo : Repo) (active : Nat) (branch : String) (translation_path : RPath)
    (lang_tag : String) (original_path : RPath) : Except TrackErr (Option Track) :=
  match GitFile.mk' repo original_path active with
  | .error e => .error e
  | .ok original =>
    match TranslationGitFile.mk' repo translation_path lang_tag active with
    | .error e => .error e
    | .ok translation =>
      if original.no_trace && translation.file.no_trace then
        .ok none
      else if original.no_trace || original.deleted_file then
        match OrphanTranslationTrack translation original branch with
        | .error e => .error e
        | .ok tr => .ok (some tr)
      else if translation.file.no_trace || translation.file.deleted_file then
        match ToCreateTranslationTrack translation original branch with
        | .error e => .error e
        | .ok tr => .ok (some tr)
      else
        match has_tbi_header translation.file.blob with
        | .error e => .error e
        | .ok true =>
          match ToInitTranslationTrack translation original branch with
          | .error e => .error e
          | .ok tr => .ok (some tr)
        | .ok false =>
          if translation.file.commit == original.commit then
            .ok (some (UpToDateTranslationTrack translation original branch))
          else
            match translation.file.commit with
            | none => .error .attributeError
            | some tc =>
              if (match original.commit with
                  | some oc => (iterParents repo tc).contains oc
                  | none => false) then
                .ok (some (UpToDateTranslationTrack translation original branch))
              else
                match ToUpdateTranslationTrack repo translation original branch with
                | .error e => .error e
                | .ok tr => .ok (some tr)

/-- All suffixes of a list, longest first (the list itself included). -/
def suffixes {α : Type} : List α → List (List α)
  | [] => [[]]
  | c :: cs => (c :: cs) :: suffixes cs

/-- Match one glob pattern component against one path component: literal
characters plus the `*` wildcard, which matches any character run —
rendered as: some suffix of the input matches the rest of the pattern. -/
def compMatch : List Char → List Char → Bool
  | [], cs => cs.isEmpty
  | p :: ps, cs =>
    if p = '*' then
      (suffixes cs).any (fun suf => compMatch ps suf)
    else
      match cs with
      | [] => false
      | c :: cs2 => p = c && compMatch ps cs2

/-- Match a glob pattern against a path, component by component; a `**`
component matches any number of components including none (the library's
recursive glob, which the source enables) — rendered as: some suffix of
the remaining components matches the rest of the pattern.  Models
`glob.iglob` membership over the modelled file system. -/
def globMatch : List String → List String → Bool
  | [], cs => cs.isEmpty
  | p :: ps, cs =>
    if p = "**" then
      (suffixes cs).any (fun suf => globMatch ps suf)
    else
      match cs with
      | [] => false
      | c :: cs2 => compMatch p.data c.data && globMatch ps cs2

/-- `parent in path.parents`: the first path is a proper ancestor directory
of the second. -/
def inParents (parent p : RPath) : Bool :=
  startsWith parent p && parent.length < p.length

/-- `fetch_files(path, filter_globs, ignore_globs)` (source lines 288-312)
over a modelled file system `fs` (the list of files on disk): every file
matched by some filter glob, lying under `path`, and not matched by any
ignore glob, in filter-glob order. -/
def fetch_files (fs : List RPath) (path : RPath) (filter_globs : List RPath)
    (ignore_globs : List RPath) : List RPath :=
  let excludes := ignore_globs.flatMap (fun gi => fs.filter (fun p => globMatch gi p))
  filter_globs.flatMap (fun gf =>
    (fs.filter (fun p => globMatch gf p)).filter
      (fun p => inParents path p && fs.contains p && !(excludes.contains p)))

/-- `replace_parent(path, parent, new_parent)` (source lines 315-330):
replace the leading `parent` components of `path` with `new_parent`. -/
def replace_parent (path parent new_parent : RPath) : RPath :=
  new_parent ++ path.drop parent.length

/-- The mutable state of the source's `TranslationTracker`: the mapping
table from `(translation path, language tag)` to original path, as an
insertion-ordered association list (a Python `dict`). -/
structure TranslationTracker where
  map : List ((RPath × String) × RPath)
deriving DecidableEq, Repr

/-- One conditional insertion into the mapping table: keys already present
are never overwritten (source lines 477-485). -/
def insertIfAbsent (m : List ((RPath × String) × RPath)) (k : RPath × String)
    (v : RPath) : List ((RPath × String) × RPath) :=
  if (alookup m k).isSome then m else m ++ [(k, v)]

/-- `TranslationTracker.put` (source lines 419-485), over a modelled file
system and working directory.  Identical paths are a `SamePathException`; a
file original maps 1:1; a directory original enumerates original-side files
with the filter and ignore globs and translation-side files with the filter
globs only, and writes both enumerations into the table (each substituted
into the other namespace) with first-writer-wins semantics; anything else is
a `ValueError`. -/
def TranslationTracker.put (fs : List RPath) (wd : RPath) (tk : TranslationTracker)
    (translation_path original_path : RPath) (lang_tag : String)
    (original_ignore_globs : List RPath) (filter_globs : List RPath) :
    Except TrackErr TranslationTracker :=
  let abs_translation_path := wd ++ translation_path
  let abs_original_path := wd ++ original_path
  if abs_translation_path = abs_original_path then
    .error .samePath
  else if fs.contains abs_original_path then
    let m1 := insertIfAbsent tk.map
      (replace_parent (abs_original_path.drop wd.length) original_path translation_path,
       lang_tag) (abs_original_path.drop wd.length)
    let m2 := insertIfAbsent m1
      (abs_translation_path.drop wd.length, lang_tag)
      (replace_parent (abs_translation_path.drop wd.length) translation_path original_path)
    .ok ⟨m2⟩
  else if fs.any (fun q => inParents abs_original_path q) then
    let abs_ignore_globs := original_ignore_globs.map (fun gi => wd ++ gi)
    let abs_filter_globs := filter_globs.map (fun gf => wd ++ gf)
    let abs_originals := fetch_files fs abs_original_path abs_filter_globs abs_ignore_globs
    let abs_translations := fetch_files fs abs_translation_path abs_filter_globs []
    let m1 := abs_originals.foldl (fun m ao =>
      insertIfAbsent m
        (replace_parent (ao.drop wd.length) original_path translation_path, lang_tag)
        (ao.drop wd.length)) tk.map
    let m2 := abs_translations.foldl (fun m at2 =>
      insertIfAbsent m
        (at2.drop wd.length, lang_tag)
        (replace_parent (at2.drop wd.length) translation_path original_path)) m1
    .ok ⟨m2⟩
  else
    .error .valueError

/-- Ten lines of content (nine newline bytes). -/
def tenLineContent : Bytes :=
  ⟨"1\n2\n3\n4\n5\n6\n7\n8\n9\n10", true⟩

/-- A store whose only revision is a root commit holding the original
`doc.md` with ten lines; the translation side has no file (the spec's
end-to-end ToCreate scenario). -/
def rootRepo : Repo :=
  ⟨[⟨[], [(["doc.md"], tenLineContent)], []⟩], []⟩

/-- A three-revision linear store: the root adds original and translation,
revision 1 deletes the original, revision 2 deletes the translation. -/
def delRepo : Repo :=
  ⟨[⟨[], [(["orig.md"], ⟨"x\n", true⟩), (["trans.md"], ⟨"y\n", true⟩)], []⟩,
    ⟨[0], [(["trans.md"], ⟨"y\n", true⟩)], []⟩,
    ⟨[1], [], []⟩], []⟩

/-- A three-revision linear store: the root adds original and translation,
revision 1 edits only the original, revision 2 edits only the translation
(so the original's last change is an ancestor of the translation's). -/
def utdRepo : Repo :=
  ⟨[⟨[], [(["docs", "page.md"], ⟨"v1\n", true⟩), (["i18n", "page.md"], ⟨"s\n", true⟩)], []⟩,
    ⟨[0], [(["docs", "page.md"], ⟨"v2\n", true⟩), (["i18n", "page.md"], ⟨"s\n", true⟩)], []⟩,
    ⟨[1], [(["docs", "page.md"], ⟨"v2\n", true⟩), (["i18n", "page.md"], ⟨"t\n", true⟩)], []⟩],
   []⟩

/-- A three-revision linear store: the root adds `A.md` and its translation
`fr/A.md`, revision 1 edits the translation, revision 2 renames `A.md` to
`B.md` while editing it.  The pair-diff table carries the literal diff the
store produces between revisions 0 and 2 for `B.md`. -/
def renameRepo : Repo :=
  ⟨[⟨[], [(["A.md"], ⟨"a0\n", true⟩), (["fr", "A.md"], ⟨"f0\n", true⟩)], []⟩,
    ⟨[0], [(["A.md"], ⟨"a0\n", true⟩), (["fr", "A.md"], ⟨"bonjour\n", true⟩)], []⟩,
    ⟨[1], [(["B.md"], ⟨"a2\n", true⟩), (["fr", "A.md"], ⟨"bonjour\n", true⟩)],
      [(["A.md"], ["B.md"])]⟩],
   [((0, 2, ["B.md"]), "@@ -1 +1 @@\n-a0\n+a2\n")]⟩


/-- Inversion for `OrphanTranslationTrack`: a successful construction is an
orphan record whose `deleted` flag is the original's deletion flag and whose
surplus line count comes from the translation. -/
theorem OrphanTranslationTrack_ok {t : TranslationGitFile} {o : GitFile} {br : String}
    {tr : Track} (h : OrphanTranslationTrack t o br = .ok tr) :
    ∃ s, t.file.cnt_lines = .ok s ∧ tr = .orphan t o br o.deleted_file s := by
  unfold OrphanTranslationTrack at h
  cases hc : t.file.cnt_lines with
  | error e => rw [hc] at h; exact absurd h (by simp)
  | ok s =>
    rw [hc] at h
    simp only [Except.ok.injEq] at h
    exact ⟨s, rfl, h.symm⟩

/-- Inversion for `ToCreateTranslationTrack`. -/
theorem ToCreateTranslationTrack_ok {t : TranslationGitFile} {o : GitFile} {br : String}
    {tr : Track} (h : ToCreateTranslationTrack t o br = .ok tr) :
    ∃ m, o.cnt_lines = .ok m ∧ tr = .tbc t o br m := by
  unfold ToCreateTranslationTrack at h
  cases hc : o.cnt_lines with
  | error e => rw [hc] at h; exact absurd h (by simp)
  | ok m =>
    rw [hc] at h
    simp only [Except.ok.injEq] at h
    exact ⟨m, rfl, h.symm⟩

/-- Inversion for `ToInitTranslationTrack`. -/
theorem ToInitTranslationTrack_ok {t : TranslationGitFile} {o : GitFile} {br : String}
    {tr : Track} (h : ToInitTranslationTrack t o br = .ok tr) :
    ∃ m, o.cnt_lines = .ok m ∧ tr = .tbi t o br m := by
  unfold ToInitTranslationTrack at h
  cases hc : o.cnt_lines with
  | error e => rw [hc] at h; exact absurd h (by simp)
  | ok m =>
    rw [hc] at h
    simp only [Except.ok.injEq] at h
    exact ⟨m, rfl, h.symm⟩

/-- Inversion for `ToUpdateTranslationTrack`: a successful construction
resolves the rename-source path of a renamed original (else the original's
path) at the translation's last-change commit, diffs from it to the current
original, and compares the two filenames for `to_rename`. -/
theorem ToUpdateTranslationTrack_ok {repo : Repo} {t : TranslationGitFile} {o : GitFile}
    {br : String} {tr : Track} (h : ToUpdateTranslationTrack repo t o br = .ok tr) :
    ∃ tc bp bo patch, t.file.commit = some tc ∧
      (if o.renamed_file then o.rename_from else some o.path) = some bp ∧
      GitFile.mk' repo bp tc = .ok bo ∧
      GitPatch.mk' repo bo o = .ok patch ∧
      tr = .update t o br (decide (t.file.path.getLastD "" ≠ o.path.getLastD "")) bo patch := by
  unfold ToUpdateTranslationTrack at h
  cases htc : t.file.commit with
  | none => rw [htc] at h; exact absurd h (by simp)
  | some tc =>
    rw [htc] at h
    dsimp only at h
    cases hbp : (if o.renamed_file then o.rename_from else some o.path) with
    | none => rw [hbp] at h; exact absurd h (by simp)
    | some bp =>
      rw [hbp] at h
      dsimp only at h
      cases hbo : GitFile.mk' repo bp tc with
      | error e => rw [hbo] at h; exact absurd h (by simp)
      | ok bo =>
        rw [hbo] at h
        dsimp only at h
        cases hp : GitPatch.mk' repo bo o with
        | error e => rw [hp] at h; exact absurd h (by simp)
        | ok patch =>
          rw [hp] at h
          simp only [Except.ok.injEq] at h
          exact ⟨tc, bp, bo, patch, rfl, rfl, hbo, hp, h.symm⟩

/-- Inversion for `GitPatch.mk'`: the counts of a successfully constructed
patch are the marker scans of its literal diff text, and `changes` is their
sum. -/
theorem GitPatch_mk_ok {repo : Repo} {a b : GitFile} {p : GitPatch}
    (h : GitPatch.mk' repo a b = .ok p) :
    p.additions = countSub p.diff "\n+" ∧ p.deletions = countSub p.diff "\n-" ∧
      p.changes = p.additions + p.deletions := by
  unfold GitPatch.mk' at h
  cases hac : a.commit with
  | none => rw [hac] at h; exact absurd h (by simp)
  | some ac =>
    cases hbc : b.commit with
    | none => rw [hac, hbc] at h; exact absurd h (by simp)
    | some bc =>
      rw [hac, hbc] at h
      dsimp only at h
      cases hd : alookup repo.pairDiffs (ac, bc, b.path) with
      | none => rw [hd] at h; exact absurd h (by simp)
      | some text =>
        rw [hd] at h
        simp only [Except.ok.injEq] at h
        subst h
        exact ⟨rfl, rfl, rfl⟩

/-- Inversion for `trackPair`: a ToUpdate record can only come from the
final cascade branch, constructed by `ToUpdateTranslationTrack` on the two
resolved files. -/
theorem trackPair_update_inv {repo : Repo} {active : Nat} {branch : String}
    {tpath : RPath} {lang : String} {opath : RPath} {t : TranslationGitFile}
    {o : GitFile} {br : String} {rn : Bool} {bo : GitFile} {patch : GitPatch}
    (h : trackPair repo active branch tpath lang opath =
      .ok (some (.update t o br rn bo patch))) :
    br = branch ∧ GitFile.mk' repo opath active = .ok o ∧
      TranslationGitFile.mk' repo tpath lang active = .ok t ∧
      ToUpdateTranslationTrack repo t o branch = .ok (.update t o br rn bo patch) := by
  unfold trackPair at h
  cases hmo : GitFile.mk' repo opath active with
  | error e => rw [hmo] at h; exact absurd h (by simp)
  | ok o2 =>
  rw [hmo] at h
  dsimp only at h
  cases hmt : TranslationGitFile.mk' repo tpath lang active with
  | error e => rw [hmt] at h; exact absurd h (by simp)
  | ok t2 =>
  rw [hmt] at h
  dsimp only at h
  by_cases h1 : (o2.no_trace && t2.file.no_trace) = true
  · rw [if_pos h1] at h; exact absurd h (by simp)
  · rw [if_neg h1] at h
    by_cases h2 : (o2.no_trace || o2.deleted_file) = true
    · rw [if_pos h2] at h
      cases hor : OrphanTranslationTrack t2 o2 branch with
      | error e => rw [hor] at h; exact absurd h (by simp)
      | ok tr =>
        rw [hor] at h
        obtain ⟨s, _, htr⟩ := OrphanTranslationTrack_ok hor
        subst htr
        exact absurd h (by simp)
    · rw [if_neg h2] at h
      by_cases h3 : (t2.file.no_trace || t2.file.deleted_file) = true
      · rw [if_pos h3] at h
        cases htcr : ToCreateTranslationTrack t2 o2 branch with
        | error e => rw [htcr] at h; exact absurd h (by simp)
        | ok tr =>
          rw [htcr] at h
          obtain ⟨m, _, htr⟩ := ToCreateTranslationTrack_ok htcr
          subst htr
          exact absurd h (by simp)
      · rw [if_neg h3] at h
        cases hhd : has_tbi_header t2.file.blob with
        | error e => rw [hhd] at h; exact absurd h (by simp)
        | ok bflag =>
          rw [hhd] at h
          cases bflag with
          | true =>
            dsimp only at h
            cases hti : ToInitTranslationTrack t2 o2 branch with
            | error e => rw [hti] at h; exact absurd h (by simp)
            | ok tr =>
              rw [hti] at h
              obtain ⟨m, _, htr⟩ := ToInitTranslationTrack_ok hti
              subst htr
              exact absurd h (by simp)
          | false =>
            dsimp only at h
            by_cases h5 : (t2.file.commit == o2.commit) = true
            · rw [if_pos h5] at h
              exact absurd h (by simp [UpToDateTranslationTrack])
            · rw [if_neg h5] at h
              cases htc : t2.file.commit with
              | none => rw [htc] at h; exact absurd h (by simp)
              | some tc =>
                rw [htc] at h
                dsimp only at h
                by_cases h6 : (match o2.commit with
                    | some oc => (iterParents repo tc).contains oc
                    | none => false) = true
                · rw [if_pos h6] at h
                  exact absurd h (by simp [UpToDateTranslationTrack])
                · rw [if_neg h6] at h
                  cases hu : ToUpdateTranslationTrack repo t2 o2 branch with
                  | error e => rw [hu] at h; exact absurd h (by simp)
                  | ok tr =>
                    rw [hu] at h
                    simp only [Except.ok.injEq, Option.some.injEq] at h
                    subst h
                    obtain ⟨tc2, bp, bo2, patch2, _, _, _, _, heq⟩ :=
                      ToUpdateTranslationTrack_ok hu
                    simp only [Track.update.injEq] at heq
                    obtain ⟨et, eo, ebr, ern, ebo, ep⟩ := heq
                    subst et
                    subst eo
                    exact ⟨ebr, by simp [hmo], by simp [hmt], by simp [hu]⟩

/-- Claim C3: the root-revision case of the revision resolver.  The claim
says a path whose nearest altering revision exists — a root revision
included — resolves with a trace in history, so the spec's end-to-end
scenario (original `doc.md` with ten lines at the lone root revision,
translation absent) classifies ToCreate with `missing_lines = 10`.  The
code disagrees: evaluated at that input, the resolver finds the root
commit (the altering-commit walk returns it, `commit` and `new_file` are
set) yet leaves `no_trace = true`, so the classifier drops the pair
(`none`) instead of producing any record. -/
theorem root_commit_no_trace_drop :
    (∃ g, GitFile.mk' rootRepo ["doc.md"] 0 = .ok g ∧ g.no_trace = true ∧
      g.commit = some 0 ∧ g.new_file = true ∧ g.blob = some tenLineContent) ∧
    iterCommitsPaths rootRepo 0 ["doc.md"] = [0] ∧
    countNewlines tenLineContent.text + 1 = 10 ∧
    trackPair rootRepo 0 "master" ["i18n", "doc.md"] "fr" ["doc.md"] = .ok none := by
  exact ⟨⟨_, rfl, rfl, rfl, rfl, rfl⟩, by decide, by decide, rfl⟩

/-- Claim C4: the marker detector is total on content: given a readable
blob it always returns `.ok` with a boolean (never an error), and the
boolean is true exactly when the content decodes and its front-matter
metadata carries the marker key with the sentinel value — undecodable or
structureless content yields false. -/
theorem has_tbi_header_no_error (b : Bytes) :
    has_tbi_header (some b) = .ok (hasTbiHeaderContent b) ∧
    (hasTbiHeaderContent b = true ↔
      b.decodable = true ∧
        alookup (parseFrontmatter b.text) HEADER_TBI_KEY = some HEADER_TBI_VALUE) := by
  refine ⟨rfl, ?_⟩
  unfold hasTbiHeaderContent decodeBytes
  obtain ⟨txt, dec⟩ := b
  cases dec with
  | false => simp
  | true =>
    simp only [if_true]
    cases hl : alookup (parseFrontmatter txt) HEADER_TBI_KEY with
    | none => simp [hl]
    | some v => simp [hl]

/-- Claim C5: `cnt_lines` on a content-bearing file is the number of
line-terminator bytes plus one; terminator-free content counts as one line
and `"a\nb\n"` as three. -/
theorem cnt_lines_terminators_plus_one (g : GitFile) (b : Bytes)
    (h1 : g.no_trace = false) (h2 : g.deleted_file = false) (h3 : g.blob = some b) :
    g.cnt_lines = .ok (countNewlines b.text + 1) ∧
    countNewlines "" + 1 = 1 ∧ countNewlines "a\nb\n" + 1 = 3 := by
  refine ⟨?_, by decide, by decide⟩
  simp [GitFile.cnt_lines, h1, h2, h3]

/-- Witness for claim C5 at a concrete content-bearing file. -/
theorem cnt_lines_terminators_plus_one_witness :
    (GitFile.mk ["f"] false (some 0) true false false none none false
      (some ⟨"a\nb\n", true⟩)).cnt_lines = .ok (countNewlines "a\nb\n" + 1) :=
  (cnt_lines_terminators_plus_one _ ⟨"a\nb\n", true⟩ rfl rfl rfl).1

/-- Claim C6: every successfully constructed patch has `changes` equal to
`additions + deletions`, the two counts being the marker scans of the
literal diff text; in particular every ToUpdate record's patch satisfies
`changes = additions + deletions`. -/
theorem gitPatch_changes_eq_sum :
    (∀ (repo : Repo) (a b : GitFile) (p : GitPatch), GitPatch.mk' repo a b = .ok p →
      p.additions = countSub p.diff "\n+" ∧ p.deletions = countSub p.diff "\n-" ∧
        p.changes = p.additions + p.deletions) ∧
    (∀ (repo : Repo) (active : Nat) (branch : String) (tpath : RPath) (lang : String)
      (opath : RPath) (t : TranslationGitFile) (o : GitFile) (br : String) (rn : Bool)
      (bo : GitFile) (patch : GitPatch),
      trackPair repo active branch tpath lang opath =
        .ok (some (.update t o br rn bo patch)) →
      patch.changes = patch.additions + patch.deletions) := by
  constructor
  · intro repo a b p h
    exact GitPatch_mk_ok h
  · intro repo active branch tpath lang opath t o br rn bo patch h
    obtain ⟨_, _, _, hu⟩ := trackPair_update_inv h
    obtain ⟨tc, bp, bo2, patch2, _, _, _, hp, heq⟩ := ToUpdateTranslationTrack_ok hu
    simp only [Track.update.injEq] at heq
    obtain ⟨_, _, _, _, ebo, ep⟩ := heq
    subst ep
    exact (GitPatch_mk_ok hp).2.2

/-- Witness for claim C6 on the rename scenario store. -/
theorem gitPatch_changes_eq_sum_witness :
    ∃ t o rn bo patch, trackPair renameRepo 2 "master" ["fr", "A.md"] "fr" ["B.md"] =
      .ok (some (.update t o "master" rn bo patch)) ∧
      patch.changes = patch.additions + patch.deletions := by
  have h : trackPair renameRepo 2 "master" ["fr", "A.md"] "fr" ["B.md"] =
      .ok (some (.update
        ⟨⟨["fr", "A.md"], false, some 1, false, false, false, none, none, false,
          some ⟨"bonjour\n", true⟩⟩, "fr", "French"⟩
        ⟨["B.md"], false, some 2, false, false, true, some ["A.md"], some ["B.md"], false,
          some ⟨"a2\n", true⟩⟩
        "master" true
        ⟨["A.md"], true, some 0, true, false, false, none, none, false,
          some ⟨"a0\n", true⟩⟩
        ⟨"@@ -1 +1 @@\n-a0\n+a2\n", 1, 1, 2⟩)) := by decide
  exact ⟨_, _, _, _, _, h,
    gitPatch_changes_eq_sum.2 renameRepo 2 "master" ["fr", "A.md"] "fr" ["B.md"]
      _ _ _ _ _ _ h⟩

/-- Claim C10: a pair whose original is traceless or deleted, and whose
translation has a trace but was itself deleted, does not produce an Orphan
record: counting the deleted translation's surplus lines raises
`NotImplementedError`, which aborts that pair. -/
theorem orphan_deleted_translation_raises (repo : Repo) (active : Nat) (branch : String)
    (tpath : RPath) (lang : String) (opath : RPath) {o : GitFile} {t : TranslationGitFile}
    (ho : GitFile.mk' repo opath active = .ok o)
    (ht : TranslationGitFile.mk' repo tpath lang active = .ok t)
    (h1 : (o.no_trace && t.file.no_trace) = false)
    (h2 : (o.no_trace || o.deleted_file) = true)
    (_h3 : t.file.no_trace = false)
    (h4 : t.file.deleted_file = true) :
    trackPair repo active branch tpath lang opath = .error .notImplemented := by
  simp [trackPair, ho, ht, h1, h2, OrphanTranslationTrack, GitFile.cnt_lines, h4]

/-- Witness for claim C10: in the store where the original is deleted at
revision 1 and the translation at revision 2, tracking the pair fails with
`NotImplementedError`. -/
theorem orphan_deleted_translation_raises_witness :
    trackPair delRepo 2 "master" ["trans.md"] "fr" ["orig.md"] = .error .notImplemented :=
  orphan_deleted_translation_raises delRepo 2 "master" ["trans.md"] "fr" ["orig.md"]
    rfl rfl rfl rfl rfl rfl


/-- The step-5 condition of the cascade (source line 529): the translation's
last-change commit equals the original's, or the original's last-change
commit is among the translation's commit's ancestors. -/
def upToDateCond (repo : Repo) (t : TranslationGitFile) (o : GitFile) : Bool :=
  (t.file.commit == o.commit) ||
    (match t.file.commit, o.commit with
     | some tc, some oc => (iterParents repo tc).contains oc
     | _, _ => false)

/-- The final cascade branch can never produce an UpToDate record. -/
theorem toUpdateBranch_ne_utd {repo : Repo} {t t2 : TranslationGitFile} {o o2 : GitFile}
    {br br2 : String} :
    (match ToUpdateTranslationTrack repo t o br with
      | .error e => (.error e : Except TrackErr (Option Track))
      | .ok tr => .ok (some tr)) ≠ .ok (some (.utd t2 o2 br2)) := by
  cases hu : ToUpdateTranslationTrack repo t o br with
  | error e => simp [hu]
  | ok tr =>
    obtain ⟨tc, bp, bo, patch, _, _, _, _, htr⟩ := ToUpdateTranslationTrack_ok hu
    subst htr
    simp [hu]

/-- A pair past steps 1-4 of the cascade is decided by the step-5 condition:
UpToDate when it holds, otherwise the ToUpdate construction (with the
translation's commit necessarily present). -/
theorem trackPair_step5_eq (repo : Repo) (active : Nat) (branch : String)
    (tpath : RPath) (lang : String) (opath : RPath) {o : GitFile} {t : TranslationGitFile}
    (ho : GitFile.mk' repo opath active = .ok o)
    (ht : TranslationGitFile.mk' repo tpath lang active = .ok t)
    (h1 : (o.no_trace && t.file.no_trace) = false)
    (h2 : (o.no_trace || o.deleted_file) = false)
    (h3 : (t.file.no_trace || t.file.deleted_file) = false)
    (h4 : has_tbi_header t.file.blob = .ok false) :
    trackPair repo active branch tpath lang opath =
      (if upToDateCond repo t o then
        .ok (some (UpToDateTranslationTrack t o branch))
      else
        match t.file.commit with
        | none => .error .attributeError
        | some _ =>
          match ToUpdateTranslationTrack repo t o branch with
          | .error e => .error e
          | .ok tr => .ok (some tr)) := by
  unfold trackPair
  rw [ho]
  dsimp only
  rw [ht]
  dsimp only
  rw [if_neg (by simp [h1]), if_neg (by simp [h2]), if_neg (by simp [h3]), h4]
  dsimp only
  by_cases h5 : (t.file.commit == o.commit) = true
  · rw [if_pos h5, if_pos (by simp [upToDateCond, h5])]
  · rw [if_neg h5]
    cases htc2 : t.file.commit with
    | none =>
      cases ho2 : o.commit with
      | none =>
        exact absurd (by rw [htc2, ho2]; rfl) h5
      | some oc =>
        rw [if_neg (by simp [upToDateCond, htc2, ho2])]
    | some tc2 =>
      dsimp only
      by_cases h6 : (match o.commit with
          | some oc => (iterParents repo tc2).contains oc
          | none => false) = true
      · cases ho2 : o.commit with
        | none => rw [ho2] at h6; exact absurd h6 (by simp)
        | some oc =>
          rw [ho2] at h6
          have h6b : (iterParents repo tc2).contains oc = true := by simpa using h6
          rw [if_pos h6, if_pos (by
            unfold upToDateCond
            rw [htc2, ho2]
            simp
            exact Or.inr (by simpa using h6b))]
      · rw [if_neg h6]
        have hcond : upToDateCond repo t o = false := by
          unfold upToDateCond
          rw [htc2]
          cases ho2 : o.commit with
          | none => simp
          | some oc =>
            rw [ho2] at h6
            have h5b : (some tc2 == some oc) = false := by
              rw [htc2, ho2] at h5
              exact Bool.eq_false_iff.mpr h5
            have h6b : (iterParents repo tc2).contains oc = false := by simpa using h6
            refine Bool.or_eq_false_iff.mpr ⟨h5b, ?_⟩
            simpa using h6b
        rw [if_neg (by simp [hcond])]

/-- Claim C2: for a pair that reaches step 5 of the cascade (neither file
traceless or deleted, no not-started marker), the record is UpToDate exactly
when the translation's last-change revision equals the original's or the
original's last-change revision is a transitive ancestor of the
translation's.  The equivalence over arbitrary stores shows the ancestry
relation is the whole criterion — content equality of base and current
original plays no role. -/
theorem trackPair_upToDate_iff_ancestry (repo : Repo) (active : Nat) (branch : String)
    (tpath : RPath) (lang : String) (opath : RPath) {o : GitFile}
    {t : TranslationGitFile} (tc : Nat)
    (ho : GitFile.mk' repo opath active = .ok o)
    (ht : TranslationGitFile.mk' repo tpath lang active = .ok t)
    (h1 : (o.no_trace && t.file.no_trace) = false)
    (h2 : (o.no_trace || o.deleted_file) = false)
    (h3 : (t.file.no_trace || t.file.deleted_file) = false)
    (h4 : has_tbi_header t.file.blob = .ok false)
    (htc : t.file.commit = some tc) :
    trackPair repo active branch tpath lang opath = .ok (some (.utd t o branch)) ↔
      (o.commit = some tc ∨ ∃ oc, o.commit = some oc ∧ oc ∈ iterParents repo tc) := by
  rw [trackPair_step5_eq repo active branch tpath lang opath ho ht h1 h2 h3 h4]
  by_cases hc : upToDateCond repo t o = true
  · rw [if_pos hc]
    constructor
    · intro _
      unfold upToDateCond at hc
      rw [htc] at hc
      simp only [Bool.or_eq_true] at hc
      cases hc with
      | inl hl =>
        rw [beq_iff_eq] at hl
        exact Or.inl hl.symm
      | inr hr =>
        cases ho2 : o.commit with
        | none => rw [ho2] at hr; exact absurd hr (by simp)
        | some oc =>
          rw [ho2] at hr
          exact Or.inr ⟨oc, rfl, by simpa using hr⟩
    · intro _
      rfl
  · rw [if_neg hc, htc]
    constructor
    · intro h
      exact absurd h toUpdateBranch_ne_utd
    · intro hrhs
      exfalso
      apply hc
      unfold upToDateCond
      rw [htc]
      rcases hrhs with heq | ⟨oc, ho2, hmem⟩
      · rw [heq]
        simp
      · rw [ho2]
        simp
        exact Or.inr hmem

/-- Witness for claim C2: in the store whose revision 1 edits only the
original and whose revision 2 edits only the translation, the pair is
UpToDate (the original's last change is an ancestor of the translation's). -/
theorem trackPair_upToDate_iff_ancestry_witness :
    ∃ t o, trackPair utdRepo 2 "master" ["i18n", "page.md"] "fr" ["docs", "page.md"] =
      .ok (some (.utd t o "master")) := by
  have h := (trackPair_upToDate_iff_ancestry utdRepo 2 "master" ["i18n", "page.md"] "fr"
    ["docs", "page.md"] 2 rfl rfl rfl rfl rfl (by decide) rfl).mpr
    (Or.inr ⟨1, rfl, by decide⟩)
  exact ⟨_, _, h⟩

/-- Claim C1 (amended): the cascade evaluates its branches in fixed priority
order, first match wins — (1) both files traceless: the pair is dropped with
no record; (2) original traceless or deleted: an Orphan record, provided the
translation's surplus line count succeeds — when it fails (deleted or
traceless translation) the pair aborts with that error; (3) translation
traceless or deleted: ToCreate; (4) not-started marker: ToInitialize —
checked before any revision comparison, so it wins even when the
translation's revision postdates the original's; (5) the ancestry condition:
UpToDate; (6) otherwise the ToUpdate construction, whose result (record or
per-pair error) is the pair's outcome. -/
theorem trackPair_priority_cascade (repo : Repo) (active : Nat) (branch : String)
    (tpath : RPath) (lang : String) (opath : RPath) {o : GitFile} {t : TranslationGitFile}
    (ho : GitFile.mk' repo opath active = .ok o)
    (ht : TranslationGitFile.mk' repo tpath lang active = .ok t) :
    ((o.no_trace && t.file.no_trace) = true →
      trackPair repo active branch tpath lang opath = .ok none)
  ∧ ((o.no_trace && t.file.no_trace) = false → (o.no_trace || o.deleted_file) = true →
      (∀ s, t.file.cnt_lines = .ok s →
        trackPair repo active branch tpath lang opath =
          .ok (some (.orphan t o branch o.deleted_file s))) ∧
      (∀ e, t.file.cnt_lines = .error e →
        trackPair repo active branch tpath lang opath = .error e))
  ∧ ((o.no_trace && t.file.no_trace) = false → (o.no_trace || o.deleted_file) = false →
      (t.file.no_trace || t.file.deleted_file) = true →
      ∀ m, o.cnt_lines = .ok m →
        trackPair repo active branch tpath lang opath = .ok (some (.tbc t o branch m)))
  ∧ ((o.no_trace && t.file.no_trace) = false → (o.no_trace || o.deleted_file) = false →
      (t.file.no_trace || t.file.deleted_file) = false →
      has_tbi_header t.file.blob = .ok true →
      ∀ m, o.cnt_lines = .ok m →
        trackPair repo active branch tpath lang opath = .ok (some (.tbi t o branch m)))
  ∧ ((o.no_trace && t.file.no_trace) = false → (o.no_trace || o.deleted_file) = false →
      (t.file.no_trace || t.file.deleted_file) = false →
      has_tbi_header t.file.blob = .ok false →
      upToDateCond repo t o = true →
      trackPair repo active branch tpath lang opath = .ok (some (.utd t o branch)))
  ∧ (∀ tc, (o.no_trace && t.file.no_trace) = false → (o.no_trace || o.deleted_file) = false →
      (t.file.no_trace || t.file.deleted_file) = false →
      has_tbi_header t.file.blob = .ok false →
      upToDateCond repo t o = false → t.file.commit = some tc →
      (∀ tr, ToUpdateTranslationTrack repo t o branch = .ok tr →
        trackPair repo active branch tpath lang opath = .ok (some tr) ∧
        ∃ rn bo patch, tr = .update t o branch rn bo patch) ∧
      (∀ e, ToUpdateTranslationTrack repo t o branch = .error e →
        trackPair repo active branch tpath lang opath = .error e)) := by
  refine ⟨?_, ?_, ?_, ?_, ?_, ?_⟩
  · intro hc
    simp [trackPair, ho, ht, hc]
  · intro h1 h2
    constructor
    · intro s hs
      simp [trackPair, ho, ht, h1, h2, OrphanTranslationTrack, hs]
    · intro e he
      simp [trackPair, ho, ht, h1, h2, OrphanTranslationTrack, he]
  · intro h1 h2 h3 m hm
    simp [trackPair, ho, ht, h1, h2, h3, ToCreateTranslationTrack, hm]
  · intro h1 h2 h3 h4 m hm
    simp [trackPair, ho, ht, h1, h2, h3, h4, ToInitTranslationTrack, hm]
  · intro h1 h2 h3 h4 h5
    rw [trackPair_step5_eq repo active branch tpath lang opath ho ht h1 h2 h3 h4,
      if_pos h5]
    rfl
  · intro tc h1 h2 h3 h4 h5 htc
    have hred := trackPair_step5_eq repo active branch tpath lang opath ho ht h1 h2 h3 h4
    rw [if_neg (by simp [h5]), htc] at hred
    constructor
    · intro tr hu
      refine ⟨?_, ?_⟩
      · rw [hred]
        dsimp only
        rw [hu]
      · obtain ⟨tc2, bp, bo, patch, _, _, _, _, htr⟩ := ToUpdateTranslationTrack_ok hu
        exact ⟨_, bo, patch, htr⟩
    · intro e he
      rw [hred]
      dsimp only
      rw [he]

/-- Counterexample to claim C1 as stated: a pair in the step-2 situation
(original's most recent change was a deletion) whose translation was itself
deleted yields an error, not an Orphan record. -/
theorem trackPair_priority_cascade_counterexample :
    (∃ o, GitFile.mk' delRepo ["orig.md"] 2 = .ok o ∧ o.no_trace = false ∧
      o.deleted_file = true) ∧
    (∃ t, TranslationGitFile.mk' delRepo ["trans.md"] "fr" 2 = .ok t ∧
      t.file.no_trace = false ∧ t.file.deleted_file = true) ∧
    trackPair delRepo 2 "master" ["trans.md"] "fr" ["orig.md"] = .error .notImplemented :=
  ⟨⟨_, rfl, rfl, rfl⟩, ⟨_, rfl, rfl, rfl⟩, rfl⟩

/-- Witness for claim C1 at two concrete inputs: a both-traceless pair is
dropped, and a step-2 pair with a deleted translation propagates the line
counter's error. -/
theorem trackPair_priority_cascade_witness :
    trackPair rootRepo 0 "master" ["i18n", "doc.md"] "fr" ["doc.md"] = .ok none ∧
    trackPair delRepo 2 "master" ["trans.md"] "fr" ["orig.md"] = .error .notImplemented :=
  ⟨(trackPair_priority_cascade rootRepo 0 "master" ["i18n", "doc.md"] "fr" ["doc.md"]
      rfl rfl).1 rfl,
   ((trackPair_priority_cascade delRepo 2 "master" ["trans.md"] "fr" ["orig.md"]
      rfl rfl).2.1 rfl rfl).2 .notImplemented rfl⟩

/-- Claim C7: every ToUpdate record's `base_original` is the original path —
the rename-source path when the current original was produced by a rename —
resolved at the translation's last-change revision; its patch is the store
diff from that base to the current original; and `to_rename` holds exactly
when the two filenames differ.  The concrete conjunct shows the rename
scenario: original renamed from `A.md` to `B.md` after the translation's
last change gives `base_original.path = A.md` while `original.path = B.md`. -/
theorem toUpdate_base_original_spec :
    (∀ (repo : Repo) (active : Nat) (branch : String) (tpath : RPath) (lang : String)
      (opath : RPath) (t : TranslationGitFile) (o : GitFile) (br : String) (rn : Bool)
      (bo : GitFile) (patch : GitPatch),
      trackPair repo active branch tpath lang opath =
        .ok (some (.update t o br rn bo patch)) →
      (∃ tc bp, t.file.commit = some tc ∧
        (if o.renamed_file then o.rename_from else some o.path) = some bp ∧
        GitFile.mk' repo bp tc = .ok bo) ∧
      GitPatch.mk' repo bo o = .ok patch ∧
      (rn = true ↔ t.file.path.getLastD "" ≠ o.path.getLastD "")) ∧
    (∃ t o rn bo patch,
      trackPair renameRepo 2 "master" ["fr", "A.md"] "fr" ["B.md"] =
        .ok (some (.update t o "master" rn bo patch)) ∧
      o.renamed_file = true ∧ o.rename_from = some ["A.md"] ∧
      bo.path = ["A.md"] ∧ o.path = ["B.md"] ∧ rn = true) := by
  constructor
  · intro repo active branch tpath lang opath t o br rn bo patch h
    obtain ⟨_, _, _, hu⟩ := trackPair_update_inv h
    obtain ⟨tc, bp, bo2, patch2, htc, hbp, hbo, hp, heq⟩ := ToUpdateTranslationTrack_ok hu
    simp only [Track.update.injEq] at heq
    obtain ⟨_, _, _, ern, ebo, ep⟩ := heq
    subst ebo
    subst ep
    refine ⟨⟨tc, bp, htc, hbp, hbo⟩, hp, ?_⟩
    rw [ern]
    simp
  · have h : trackPair renameRepo 2 "master" ["fr", "A.md"] "fr" ["B.md"] =
        .ok (some (.update
          ⟨⟨["fr", "A.md"], false, some 1, false, false, false, none, none, false,
            some ⟨"bonjour\n", true⟩⟩, "fr", "French"⟩
          ⟨["B.md"], false, some 2, false, false, true, some ["A.md"], some ["B.md"], false,
            some ⟨"a2\n", true⟩⟩
          "master" true
          ⟨["A.md"], true, some 0, true, false, false, none, none, false,
            some ⟨"a0\n", true⟩⟩
          ⟨"@@ -1 +1 @@\n-a0\n+a2\n", 1, 1, 2⟩)) := by decide
    exact ⟨_, _, _, _, _, h, rfl, rfl, rfl, rfl, rfl⟩

/-- Witness for claim C7 on the rename scenario store: the produced
ToUpdate record's `to_rename` flag agrees with the filename comparison. -/
theorem toUpdate_base_original_spec_witness :
    ∃ t o rn bo patch,
      trackPair renameRepo 2 "master" ["fr", "A.md"] "fr" ["B.md"] =
        .ok (some (.update t o "master" rn bo patch)) ∧
      (rn = true ↔ t.file.path.getLastD "" ≠ o.path.getLastD "") := by
  have h : trackPair renameRepo 2 "master" ["fr", "A.md"] "fr" ["B.md"] =
      .ok (some (.update
        ⟨⟨["fr", "A.md"], false, some 1, false, false, false, none, none, false,
          some ⟨"bonjour\n", true⟩⟩, "fr", "French"⟩
        ⟨["B.md"], false, some 2, false, false, true, some ["A.md"], some ["B.md"], false,
          some ⟨"a2\n", true⟩⟩
        "master" true
        ⟨["A.md"], true, some 0, true, false, false, none, none, false,
          some ⟨"a0\n", true⟩⟩
        ⟨"@@ -1 +1 @@\n-a0\n+a2\n", 1, 1, 2⟩)) := by decide
  exact ⟨_, _, _, _, _, h,
    (toUpdate_base_original_spec.1 renameRepo 2 "master" ["fr", "A.md"] "fr" ["B.md"]
      _ _ _ _ _ _ h).2.2⟩

/-- Claim C9: constructing a `TranslationGitFile` with a tag outside the
registry never produces an object; a successful construction derives
`language` from the registry entry for its tag; the derived name cannot be
assigned directly; and re-assigning the tag re-validates and re-derives the
name, keeping the invariant. -/
theorem translationGitFile_registry_invariant :
    (∀ (repo : Repo) (path : RPath) (tag : String) (c : Nat),
      alookup RFC5646_LANGUAGE_TAGS tag = none →
      ∀ t, TranslationGitFile.mk' repo path tag c ≠ .ok t)
  ∧ (∀ (repo : Repo) (path : RPath) (tag : String) (c : Nat) (t : TranslationGitFile),
      TranslationGitFile.mk' repo path tag c = .ok t →
      t.lang_tag = tag ∧ alookup RFC5646_LANGUAGE_TAGS t.lang_tag = some t.language)
  ∧ (∀ (t : TranslationGitFile) (v : String), t.setLanguage v = .error .notImplemented)
  ∧ (∀ (t t2 : TranslationGitFile) (tag : String), t.setLangTag tag = .ok t2 →
      t2.lang_tag = tag ∧ alookup RFC5646_LANGUAGE_TAGS t2.lang_tag = some t2.language) := by
  refine ⟨?_, ?_, ?_, ?_⟩
  · intro repo path tag c hl t
    unfold TranslationGitFile.mk'
    cases hg : GitFile.mk' repo path c with
    | error e => simp
    | ok g => rw [hl]; simp
  · intro repo path tag c t h
    unfold TranslationGitFile.mk' at h
    cases hg : GitFile.mk' repo path c with
    | error e => rw [hg] at h; exact absurd h (by simp)
    | ok g =>
      rw [hg] at h
      dsimp only at h
      cases hl : alookup RFC5646_LANGUAGE_TAGS tag with
      | none => rw [hl] at h; exact absurd h (by simp)
      | some name =>
        rw [hl] at h
        simp only [Except.ok.injEq] at h
        subst h
        exact ⟨rfl, hl⟩
  · intro t v
    rfl
  · intro t t2 tag h
    unfold TranslationGitFile.setLangTag at h
    cases hl : alookup RFC5646_LANGUAGE_TAGS tag with
    | none => rw [hl] at h; exact absurd h (by simp)
    | some name =>
      rw [hl] at h
      simp only [Except.ok.injEq] at h
      subst h
      exact ⟨rfl, hl⟩

/-- Witness for claim C9: the tag `fr` constructs with the registry-derived
name, and the unregistered tag `xx` can produce no object. -/
theorem translationGitFile_registry_invariant_witness :
    (∃ t, TranslationGitFile.mk' delRepo ["trans.md"] "fr" 2 = .ok t ∧
      t.lang_tag = "fr" ∧ alookup RFC5646_LANGUAGE_TAGS t.lang_tag = some t.language) ∧
    TranslationGitFile.mk' delRepo ["trans.md"] "xx" 2 ≠
      .ok ⟨⟨["trans.md"], true, none, false, false, false, none, none, false, none⟩,
        "xx", "Unknown"⟩ := by
  constructor
  · have h := translationGitFile_registry_invariant.2.1 delRepo ["trans.md"] "fr" 2 _ rfl
    exact ⟨_, rfl, h⟩
  · exact translationGitFile_registry_invariant.1 delRepo ["trans.md"] "xx" 2 (by decide) _

/-- Associativity of the first-wins choice on lookup results. -/
theorem option_orElse_assoc {β : Type} (x y z : Option β) :
    ((x <|> y) <|> z) = (x <|> (y <|> z)) := by
  cases x <;> rfl

/-- Lookup in an appended table: the left table wins. -/
theorem alookup_append {α β : Type} [DecidableEq α] (m1 m2 : List (α × β)) (k : α) :
    alookup (m1 ++ m2) k = (alookup m1 k <|> alookup m2 k) := by
  induction m1 with
  | nil => rfl
  | cons e m1 ih =>
    obtain ⟨k0, v⟩ := e
    simp only [List.cons_append, alookup]
    by_cases hk : k0 = k
    · rw [if_pos hk, if_pos hk]
      rfl
    · rw [if_neg hk, if_neg hk]
      exact ih

/-- Lookup after a conditional insertion: the existing table wins, and the
new entry is only visible when its key was absent. -/
theorem alookup_insertIfAbsent (m : List ((RPath × String) × RPath))
    (k0 k : RPath × String) (v : RPath) :
    alookup (insertIfAbsent m k0 v) k = (alookup m k <|> alookup [(k0, v)] k) := by
  unfold insertIfAbsent
  by_cases h : (alookup m k0).isSome
  · rw [if_pos h]
    cases hk : alookup m k with
    | some w => rfl
    | none =>
      show none = (none <|> alookup [(k0, v)] k)
      simp only [alookup]
      by_cases hkk : k0 = k
      · subst hkk
        rw [hk] at h
        simp at h
      · rw [if_neg hkk]
        rfl
  · rw [if_neg h, alookup_append]

/-- Lookup after folding conditional insertions over a list: the initial
table first, then the inserted entries in list order. -/
theorem alookup_foldl_insert {α : Type} (f : α → ((RPath × String) × RPath))
    (l : List α) (m : List ((RPath × String) × RPath)) (k : RPath × String) :
    alookup (l.foldl (fun acc a => insertIfAbsent acc (f a).1 (f a).2) m) k =
      (alookup m k <|> alookup (l.map f) k) := by
  induction l generalizing m with
  | nil =>
    simp only [List.foldl_nil, List.map_nil]
    cases alookup m k <;> rfl
  | cons a l ih =>
    simp only [List.foldl_cons, List.map_cons]
    rw [ih, alookup_insertIfAbsent]
    rw [show ((f a) :: l.map f) = [(f a)] ++ l.map f from rfl, alookup_append]
    rw [option_orElse_assoc]

/-- A key is absent from a table exactly when its lookup fails. -/
theorem alookup_eq_none_iff {α β : Type} [DecidableEq α] (m : List (α × β)) (k : α) :
    alookup m k = none ↔ k ∉ m.map Prod.fst := by
  induction m with
  | nil => simp [alookup]
  | cons e m ih =>
    obtain ⟨k0, v⟩ := e
    simp only [alookup, List.map_cons, List.mem_cons]
    by_cases hk : k0 = k
    · subst hk
      simp
    · rw [if_neg hk]
      simp only [ih]
      constructor
      · intro hn hc
        rcases hc with hc | hc
        · exact hk hc.symm
        · exact hn hc
      · intro hn
        intro hc
        exact hn (Or.inr hc)

/-- Conditional insertion preserves key uniqueness. -/
theorem insertIfAbsent_nodup (m : List ((RPath × String) × RPath))
    (k0 : RPath × String) (v : RPath) (h : (m.map Prod.fst).Nodup) :
    ((insertIfAbsent m k0 v).map Prod.fst).Nodup := by
  unfold insertIfAbsent
  by_cases hs : (alookup m k0).isSome
  · rw [if_pos hs]
    exact h
  · rw [if_neg hs]
    rw [List.map_append]
    refine List.Nodup.append h (List.nodup_singleton k0) ?_
    intro a ha hb
    simp only [List.map_cons, List.map_nil, List.mem_singleton] at hb
    subst hb
    rw [Option.not_isSome_iff_eq_none] at hs
    exact (alookup_eq_none_iff m a).mp hs ha

/-- Folded conditional insertions preserve key uniqueness. -/
theorem foldl_insertIfAbsent_nodup {α : Type} (f : α → ((RPath × String) × RPath))
    (l : List α) (m : List ((RPath × String) × RPath))
    (h : (m.map Prod.fst).Nodup) :
    (((l.foldl (fun acc a => insertIfAbsent acc (f a).1 (f a).2) m)).map Prod.fst).Nodup := by
  induction l generalizing m with
  | nil => exact h
  | cons a l ih => exact ih _ (insertIfAbsent_nodup _ _ _ h)

/-- The mapping entry contributed by an original-side file: its path
substituted into translation space as the key, itself as the value. -/
def originalEntry (wd tpath opath : RPath) (lang : String) (ao : RPath) :
    (RPath × String) × RPath :=
  ((replace_parent (ao.drop wd.length) opath tpath, lang), ao.drop wd.length)

/-- The mapping entry contributed by a translation-side file: itself as the
key, its path substituted into original space as the value. -/
def translationEntry (wd tpath opath : RPath) (lang : String) (at2 : RPath) :
    (RPath × String) × RPath :=
  ((at2.drop wd.length, lang), replace_parent (at2.drop wd.length) tpath opath)

/-- Claim C8: a directory-rooted `put` produces exactly the union of the
original-side enumeration (filter globs applied, ignore globs applied,
substituted into translation space) and the translation-side enumeration
(same filter globs, no ignore globs, substituted into original space), in
first-writer-wins order after the pre-existing table: every lookup is
resolved by the pre-existing entry first, then the original-side entries,
then the translation-side entries; existing entries are never overwritten;
and key uniqueness is preserved. -/
theorem put_directory_union_first_wins (fs : List RPath) (wd : RPath)
    (tk : TranslationTracker) (tpath opath : RPath) (lang : String)
    (igs fgs : List RPath) (tk2 : TranslationTracker)
    (hnf : fs.contains (wd ++ opath) = false)
    (hdir : fs.any (fun q => inParents (wd ++ opath) q) = true)
    (h : TranslationTracker.put fs wd tk tpath opath lang igs fgs = .ok tk2) :
    (∀ k, alookup tk2.map k =
      (alookup tk.map k <|>
       alookup ((fetch_files fs (wd ++ opath) (fgs.map (fun gf => wd ++ gf))
          (igs.map (fun gi => wd ++ gi))).map (originalEntry wd tpath opath lang)) k <|>
       alookup ((fetch_files fs (wd ++ tpath) (fgs.map (fun gf => wd ++ gf)) []).map
          (translationEntry wd tpath opath lang)) k))
  ∧ (∀ k v, alookup tk.map k = some v → alookup tk2.map k = some v)
  ∧ ((tk.map.map Prod.fst).Nodup → (tk2.map.map Prod.fst).Nodup) := by
  unfold TranslationTracker.put at h
  dsimp only at h
  by_cases heq : wd ++ tpath = wd ++ opath
  · rw [if_pos heq] at h
    exact absurd h (by simp)
  · rw [if_neg heq, if_neg (by rw [hnf]; exact Bool.false_ne_true), if_pos hdir] at h
    have htk := Except.ok.inj h
    subst htk
    have hmain : ∀ k, alookup
        (TranslationTracker.mk
          ((fetch_files fs (wd ++ tpath) (fgs.map (fun gf => wd ++ gf)) []).foldl
            (fun m at2 => insertIfAbsent m (at2.drop wd.length, lang)
              (replace_parent (at2.drop wd.length) tpath opath))
            ((fetch_files fs (wd ++ opath) (fgs.map (fun gf => wd ++ gf))
                (igs.map (fun gi => wd ++ gi))).foldl
              (fun m ao => insertIfAbsent m
                (replace_parent (ao.drop wd.length) opath tpath, lang)
                (ao.drop wd.length))
              tk.map))).map k =
        (alookup tk.map k <|>
         alookup ((fetch_files fs (wd ++ opath) (fgs.map (fun gf => wd ++ gf))
            (igs.map (fun gi => wd ++ gi))).map (originalEntry wd tpath opath lang)) k <|>
         alookup ((fetch_files fs (wd ++ tpath) (fgs.map (fun gf => wd ++ gf)) []).map
            (translationEntry wd tpath opath lang)) k) := by
      intro k
      show alookup
          ((fetch_files fs (wd ++ tpath) (fgs.map (fun gf => wd ++ gf)) []).foldl
            (fun acc a => insertIfAbsent acc (translationEntry wd tpath opath lang a).1
              (translationEntry wd tpath opath lang a).2)
            ((fetch_files fs (wd ++ opath) (fgs.map (fun gf => wd ++ gf))
                (igs.map (fun gi => wd ++ gi))).foldl
              (fun acc a => insertIfAbsent acc (originalEntry wd tpath opath lang a).1
                (originalEntry wd tpath opath lang a).2)
              tk.map)) k = _
      rw [alookup_foldl_insert (translationEntry wd tpath opath lang),
        alookup_foldl_insert (originalEntry wd tpath opath lang),
        option_orElse_assoc]
    refine ⟨fun k => hmain k, ?_, ?_⟩
    · intro k v hv
      rw [hmain k, hv]
      rfl
    · intro hnd
      exact foldl_insertIfAbsent_nodup (translationEntry wd tpath opath lang) _ _
        (foldl_insertIfAbsent_nodup (originalEntry wd tpath opath lang) _ _ hnd)

/-- The on-disk files of the source docstring's example tree. -/
def fsDocs : List RPath :=
  [["docs", "README.md"], ["docs", "nested", "README.md"],
   ["docs", "zh", "README.md"], ["docs", "zh", "foo.md"]]

/-- Witness for claim C8: the docstring example — mapping `docs/zh` onto
`docs` with `**/*.md` filtering and `docs/zh/**/*` ignored on the original
side — succeeds and the resulting table has unique keys. -/
theorem put_directory_union_first_wins_witness :
    ∃ tk2, TranslationTracker.put fsDocs [] ⟨[]⟩ ["docs", "zh"] ["docs"] "zh"
        [["docs", "zh", "**", "*"]] [["**", "*.md"]] = .ok tk2 ∧
      (tk2.map.map Prod.fst).Nodup := by
  have h : TranslationTracker.put fsDocs [] ⟨[]⟩ ["docs", "zh"] ["docs"] "zh"
      [["docs", "zh", "**", "*"]] [["**", "*.md"]] =
      .ok ⟨[(((["docs", "zh", "README.md"], "zh")), ["docs", "README.md"]),
            (((["docs", "zh", "nested", "README.md"], "zh")), ["docs", "nested", "README.md"]),
            (((["docs", "zh", "foo.md"], "zh")), ["docs", "foo.md"])]⟩ := by decide
  exact ⟨_, h,
    (put_directory_union_first_wins fsDocs [] ⟨[]⟩ ["docs", "zh"] ["docs"] "zh"
      [["docs", "zh", "**", "*"]] [["**", "*.md"]] _ (by decide) (by decide) h).2.2
      (by simp)⟩
